import Mathlib

set_option maxRecDepth 100000

/-!
Shallow embedding of `markdown2html.py` (Markdown-to-HTML converter).

The pure core of the script is modelled here:
* `md5_hash` — `hashlib.md5(text.encode('utf-8')).hexdigest()` (RFC 1321 MD5
  over the UTF-8 bytes, rendered as 32 lowercase hex characters);
* `remove_c_chars` — `re.sub(r'[cC]', '', text)`;
* `parse_inline_formatting` — the four sequential `re.sub` substitutions
  (`[[..]]` → MD5, `((..))` → c-removal, `**..**` → bold, `__..__` → em);
* `process_list_block` — collection of one `<ul>`/`<ol>` block;
* `convert_markdown_to_html` — the line-classification loop, modelled on the
  list of input lines (line endings already stripped, as `rstrip('\n')` does
  on every access).  The outer `while` loop of the script is not structurally
  terminating, so it is modelled with explicit fuel: `none` means the loop was
  still running when the fuel ran out.  Since every genuine loop iteration is
  paid for by one unit of fuel, `(forall fuel, ... = none)` states that the
  script's loop never finishes on that input.
-/

/-- ASCII whitespace recognised by Python's `str.strip()` (ASCII fragment). -/
def pyWs (c : Char) : Bool :=
  c = ' ' || c = '\t' || c = '\n' || c = '\x0d' || c = '\x0b' || c = '\x0c'

/-- Python `str.strip()` on a character list: drop whitespace at both ends. -/
def pyStripL (l : List Char) : List Char :=
  ((l.dropWhile pyWs).reverse.dropWhile pyWs).reverse

/-- Python `line.strip()`. -/
def pyStrip (s : String) : String := ⟨pyStripL s.data⟩

/-- Python `s.startswith(pre)`. -/
def strStarts (s pre : String) : Bool := pre.data.isPrefixOf s.data

/-- Python `s.endswith(suf)` (used only to state properties of fragments). -/
def strEnds (s suf : String) : Bool := suf.data.isSuffixOf s.data

/-- Python slice `s[n:]`. -/
def strDrop (s : String) (n : Nat) : String := ⟨s.data.drop n⟩

/-- UTF-8 encoding of a single Unicode scalar value, as bytes (Nat < 256). -/
def utf8Bytes (c : Char) : List Nat :=
  let n := c.toNat
  if n < 128 then [n]
  else if n < 2048 then [192 + n / 64, 128 + n % 64]
  else if n < 65536 then [224 + n / 4096, 128 + n / 64 % 64, 128 + n % 64]
  else [240 + n / 262144, 128 + n / 4096 % 64, 128 + n / 64 % 64, 128 + n % 64]

/-- UTF-8 encoding of a character list (Python `text.encode('utf-8')`). -/
def utf8Enc (cs : List Char) : List Nat := (cs.map utf8Bytes).flatten

/-- Rotate a 32-bit value (a Nat below 2^32) left by `s` bits. -/
def rotl32 (x s : Nat) : Nat :=
  ((x <<< s) % 4294967296) ||| (x >>> (32 - s))

/-- The 64 MD5 sine-derived constants of RFC 1321. -/
def md5K : List Nat :=
  [0xd76aa478, 0xe8c7b756, 0x242070db, 0xc1bdceee,
   0xf57c0faf, 0x4787c62a, 0xa8304613, 0xfd469501,
   0x698098d8, 0x8b44f7af, 0xffff5bb1, 0x895cd7be,
   0x6b901122, 0xfd987193, 0xa679438e, 0x49b40821,
   0xf61e2562, 0xc040b340, 0x265e5a51, 0xe9b6c7aa,
   0xd62f105d, 0x02441453, 0xd8a1e681, 0xe7d3fbc8,
   0x21e1cde6, 0xc33707d6, 0xf4d50d87, 0x455a14ed,
   0xa9e3e905, 0xfcefa3f8, 0x676f02d9, 0x8d2a4c8a,
   0xfffa3942, 0x8771f681, 0x6d9d6122, 0xfde5380c,
   0xa4beea44, 0x4bdecfa9, 0xf6bb4b60, 0xbebfbc70,
   0x289b7ec6, 0xeaa127fa, 0xd4ef3085, 0x04881d05,
   0xd9d4d039, 0xe6db99e5, 0x1fa27cf8, 0xc4ac5665,
   0xf4292244, 0x432aff97, 0xab9423a7, 0xfc93a039,
   0x655b59c3, 0x8f0ccc92, 0xffeff47d, 0x85845dd1,
   0x6fa87e4f, 0xfe2ce6e0, 0xa3014314, 0x4e0811a1,
   0xf7537e82, 0xbd3af235, 0x2ad7d2bb, 0xeb86d391]

/-- The 64 MD5 per-round left-rotation amounts of RFC 1321. -/
def md5S : List Nat :=
  [7, 12, 17, 22, 7, 12, 17, 22, 7, 12, 17, 22, 7, 12, 17, 22,
   5, 9, 14, 20, 5, 9, 14, 20, 5, 9, 14, 20, 5, 9, 14, 20,
   4, 11, 16, 23, 4, 11, 16, 23, 4, 11, 16, 23, 4, 11, 16, 23,
   6, 10, 15, 21, 6, 10, 15, 21, 6, 10, 15, 21, 6, 10, 15, 21]

/-- Split a 64-byte chunk into 16 little-endian 32-bit words. -/
def chunkWords (chunk : List Nat) : List Nat :=
  (List.range 16).map (fun j =>
    chunk.getD (4 * j) 0 + 256 * chunk.getD (4 * j + 1) 0 +
      65536 * chunk.getD (4 * j + 2) 0 + 16777216 * chunk.getD (4 * j + 3) 0)

/-- One of the 64 MD5 rounds, acting on the running state `(a, b, c, d)`. -/
def md5Round (ws : List Nat) (st : Nat × Nat × Nat × Nat) (i : Nat) :
    Nat × Nat × Nat × Nat :=
  let a := st.1
  let b := st.2.1
  let c := st.2.2.1
  let d := st.2.2.2
  let f :=
    if i < 16 then (b &&& c) ||| ((4294967295 ^^^ b) &&& d)
    else if i < 32 then (d &&& b) ||| ((4294967295 ^^^ d) &&& c)
    else if i < 48 then b ^^^ c ^^^ d
    else c ^^^ (b ||| (4294967295 ^^^ d))
  let g :=
    if i < 16 then i
    else if i < 32 then (5 * i + 1) % 16
    else if i < 48 then (3 * i + 5) % 16
    else (7 * i) % 16
  let tmp := (f + a + md5K.getD i 0 + ws.getD g 0) % 4294967296
  (d, (b + rotl32 tmp (md5S.getD i 0)) % 4294967296, b, c)

/-- Process one 64-byte chunk: 64 rounds then add into the state mod 2^32. -/
def md5Compress (st : Nat × Nat × Nat × Nat) (chunk : List Nat) :
    Nat × Nat × Nat × Nat :=
  let ws := chunkWords chunk
  let r := (List.range 64).foldl (md5Round ws) st
  ((st.1 + r.1) % 4294967296, (st.2.1 + r.2.1) % 4294967296,
   (st.2.2.1 + r.2.2.1) % 4294967296, (st.2.2.2 + r.2.2.2) % 4294967296)

/-- Fold `md5Compress` over the 64-byte chunks of the padded message.  The
fuel argument only bounds the number of chunks; it is always instantiated
with a sufficient value. -/
def md5Chunks : Nat → Nat × Nat × Nat × Nat → List Nat → Nat × Nat × Nat × Nat
  | 0, st, _ => st
  | _ + 1, st, [] => st
  | fuel + 1, st, b :: bs =>
      md5Chunks fuel (md5Compress st ((b :: bs).take 64)) ((b :: bs).drop 64)

/-- MD5 padding for a message of `len` bytes: `0x80`, zeros to 56 mod 64,
then the bit length as 8 little-endian bytes. -/
def padBytes (len : Nat) : List Nat :=
  0x80 :: List.replicate ((119 - len % 64) % 64) 0 ++
    [8 * len % 256, 8 * len / 256 % 256, 8 * len / 65536 % 256,
     8 * len / 16777216 % 256, 8 * len / 4294967296 % 256,
     8 * len / 1099511627776 % 256, 8 * len / 281474976710656 % 256,
     8 * len / 72057594037927936 % 256]

/-- Serialize one 32-bit word as 4 little-endian bytes. -/
def wordBytesLE (w : Nat) : List Nat :=
  [w % 256, w / 256 % 256, w / 65536 % 256, w / 16777216 % 256]

/-- Serialize the final MD5 state as the 16 digest bytes. -/
def digestBytes (a b c d : Nat) : List Nat :=
  wordBytesLE a ++ wordBytesLE b ++ wordBytesLE c ++ wordBytesLE d

/-- The 16 MD5 digest bytes of a byte message. -/
def md5Bytes (msg : List Nat) : List Nat :=
  let padded := msg ++ padBytes msg.length
  let st := md5Chunks (padded.length + 1)
    (0x67452301, 0xefcdab89, 0x98badcfe, 0x10325476) padded
  digestBytes st.1 st.2.1 st.2.2.1 st.2.2.2

/-- Lowercase hexadecimal digit for a value below 16. -/
def hexDigitChar (n : Nat) : Char :=
  if n < 10 then Char.ofNat (48 + n) else Char.ofNat (87 + n)

/-- Two lowercase hex digits of one byte (`'%02x'` formatting). -/
def byteHex (b : Nat) : List Char := [hexDigitChar (b / 16), hexDigitChar (b % 16)]

/-- Lowercase hex rendering of a byte list (`hexdigest`). -/
def hexOfBytes (bs : List Nat) : List Char := (bs.map byteHex).flatten

/-- Character-list form of `md5_hash`. -/
def md5HashChars (cs : List Char) : List Char := hexOfBytes (md5Bytes (utf8Enc cs))

/-- The script's `md5_hash`: lowercase hex MD5 digest of the UTF-8 bytes. -/
def md5_hash (text : String) : String := ⟨md5HashChars text.data⟩

/-- Character-list form of `remove_c_chars`: drop every `c` and `C`. -/
def removeCL (l : List Char) : List Char :=
  l.filter (fun ch => !(ch = 'c' || ch = 'C'))

/-- The script's `remove_c_chars`: `re.sub(r'[cC]', '', text)`. -/
def remove_c_chars (text : String) : String := ⟨removeCL text.data⟩

/-- One `re.sub` pass for a pattern of the shape `oo([^f]+)ff` (this covers
all four patterns of `parse_inline_formatting`: `\[\[([^\]]+)\]\]`,
`\(\(([^)]+)\)\)`, `\*\*([^*]+)\*\*`, `__([^_]+)__`).  The scan looks for the
leftmost position where the two opening characters are followed by a
nonempty run of non-`f` characters and then the two closing characters; the
span is replaced by `repl` applied to the run, and scanning resumes after
the match (matches are non-overlapping, replacements are not rescanned).
The fuel is always instantiated with the length of the list, which is
sufficient since every step consumes at least one input character. -/
def scanSubGo (o f : Char) (repl : List Char → List Char) :
    Nat → List Char → List Char
  | 0, s => s
  | _ + 1, [] => []
  | fuel + 1, x :: xs =>
    if x = o then
      match xs with
      | [] => [x]
      | y :: ys =>
        if y = o then
          match ys.takeWhile (fun ch => ch != f), ys.dropWhile (fun ch => ch != f) with
          | c1 :: cs, r1 :: r2 :: rs =>
            if r1 = f ∧ r2 = f then repl (c1 :: cs) ++ scanSubGo o f repl fuel rs
            else x :: scanSubGo o f repl fuel xs
          | _, _ => x :: scanSubGo o f repl fuel xs
        else x :: scanSubGo o f repl fuel xs
    else x :: scanSubGo o f repl fuel xs

/-- `re.sub` for the pattern `oo([^f]+)ff` with replacement `repl`. -/
def scanSub (o f : Char) (repl : List Char → List Char) (l : List Char) :
    List Char := scanSubGo o f repl l.length l

/-- Stage 1 of `parse_inline_formatting`: `[[text]]` → MD5 digest. -/
def hashStage (line : String) : String :=
  ⟨scanSub '[' ']' md5HashChars line.data⟩

/-- Stage 2 of `parse_inline_formatting`: `((text))` → text without c/C. -/
def removeCStage (line : String) : String :=
  ⟨scanSub '(' ')' removeCL line.data⟩

/-- Stage 3 of `parse_inline_formatting`: `**text**` → `<b>text</b>`. -/
def boldStage (line : String) : String :=
  ⟨scanSub '*' '*' (fun cs => "<b>".data ++ cs ++ "</b>".data) line.data⟩

/-- Stage 4 of `parse_inline_formatting`: `__text__` → `<em>text</em>`. -/
def emStage (line : String) : String :=
  ⟨scanSub '_' '_' (fun cs => "<em>".data ++ cs ++ "</em>".data) line.data⟩

/-- The script's `parse_inline_formatting`: the four substitutions applied
in order, each on the previous stage's result. -/
def parse_inline_formatting (line : String) : String :=
  emStage (boldStage (removeCStage (hashStage line)))

/-- The `while` loop of `process_list_block`, acting on the lines from the
start index onwards; returns the `<li>` fragments and the number of lines
consumed.  A marker line contributes one item; a blank line is consumed and
ends the list; any other line ends the list unconsumed. -/
def processListGo (list_char : String) : List String → List String × Nat
  | [] => ([], 0)
  | line :: rest =>
    if strStarts line (list_char ++ " ") then
      (("<li>" ++ parse_inline_formatting (pyStrip (strDrop line (list_char ++ " ").length)) ++ "</li>")
          :: (processListGo list_char rest).1,
        (processListGo list_char rest).2 + 1)
    else if (pyStrip line).data.isEmpty then ([], 1)
    else ([], 0)

/-- The script's `process_list_block`: open tag, items, close tag, and the
new absolute cursor index. -/
def process_list_block (lines : List String) (start_index : Nat)
    (list_char list_tag : String) : List String × Nat :=
  (("<" ++ list_tag ++ ">") :: (processListGo list_char (lines.drop start_index)).1
      ++ ["</" ++ list_tag ++ ">"],
    start_index + (processListGo list_char (lines.drop start_index)).2)

/-- The inner paragraph-collection loop of `convert_markdown_to_html`:
consume lines until a blank line or a line starting a header or list;
returns the collected lines and how many were consumed. -/
def collectParagraph : List String → List String × Nat
  | [] => ([], 0)
  | line :: rest =>
    if (pyStrip line).data.isEmpty || strStarts line "#" || strStarts line "- "
        || strStarts line "* " then ([], 0)
    else ((line :: (collectParagraph rest).1), (collectParagraph rest).2 + 1)

/-- One iteration of the outer `while` loop of `convert_markdown_to_html` at
cursor `i`: `none` when `i` is past the end (loop exits), otherwise the
fragments emitted by this iteration and the next cursor value. -/
def convStep (lines : List String) (i : Nat) : Option (List String × Nat) :=
  match lines[i]? with
  | none => none
  | some line =>
    if (pyStrip line).data.isEmpty then some ([], i + 1)
    else
      let level := (line.data.takeWhile (fun ch => ch = '#')).length
      if strStarts line "#" ∧ 1 ≤ level ∧ level ≤ 6 ∧ line.data.get? level = some ' ' then
        some (["<h" ++ Nat.repr level ++ ">"
            ++ parse_inline_formatting (pyStrip (strDrop line (level + 1)))
            ++ "</h" ++ Nat.repr level ++ ">"], i + 1)
      else if strStarts line "- " then
        some (process_list_block lines i "-" "ul")
      else if strStarts line "* " then
        some (process_list_block lines i "*" "ol")
      else
        some (["<p>"
            ++ parse_inline_formatting
                (String.intercalate " " (collectParagraph (lines.drop i)).1)
            ++ "</p>"], i + (collectParagraph (lines.drop i)).2)

/-- The cursor position after one iteration of the outer loop (unchanged
when the loop is about to exit). -/
def nextIndex (lines : List String) (i : Nat) : Nat :=
  match convStep lines i with
  | none => i
  | some fj => fj.2

/-- The outer `while` loop of `convert_markdown_to_html`, with fuel paying
for one iteration each; `none` means the loop was still running when the
fuel ran out. -/
def convertGo (lines : List String) : Nat → Nat → List String → Option (List String)
  | 0, i, acc =>
    match convStep lines i with
    | none => some acc
    | some _ => none
  | fuel + 1, i, acc =>
    match convStep lines i with
    | none => some acc
    | some fj => convertGo lines fuel fj.2 (acc ++ fj.1)

/-- The pure core of the script's `convert_markdown_to_html`: from the list
of input lines (line endings stripped) to the output text, `'\n'`-joined
fragments plus a trailing newline.  `none` when the loop does not finish
within the given fuel. -/
def convert_markdown_to_html (fuel : Nat) (lines : List String) : Option String :=
  (convertGo lines fuel 0 []).map
    (fun frags => String.intercalate "\n" frags ++ "\n")

/-! ## Lemmas about the substitution scanner -/

theorem takeWhile_append_all {α : Type} (p : α → Bool) :
    ∀ (l : List α) (b : α) (r : List α), (∀ a ∈ l, p a = true) → p b = false →
      (l ++ b :: r).takeWhile p = l := by
  intro l
  induction l with
  | nil => intro b r _ hb; simp [List.takeWhile_cons, hb]
  | cons a l ih =>
    intro b r hl hb
    have ha : p a = true := hl a (List.mem_cons_self _ _)
    simp [List.takeWhile_cons, ha]
    exact ih b r (fun x hx => hl x (List.mem_cons_of_mem _ hx)) hb

theorem dropWhile_append_all {α : Type} (p : α → Bool) :
    ∀ (l : List α) (b : α) (r : List α), (∀ a ∈ l, p a = true) → p b = false →
      (l ++ b :: r).dropWhile p = b :: r := by
  intro l
  induction l with
  | nil => intro b r _ hb; simp [List.dropWhile_cons, hb]
  | cons a l ih =>
    intro b r hl hb
    have ha : p a = true := hl a (List.mem_cons_self _ _)
    simp [List.dropWhile_cons, ha]
    exact ih b r (fun x hx => hl x (List.mem_cons_of_mem _ hx)) hb

theorem scanSubGo_nil (o f : Char) (repl : List Char → List Char) (fuel : Nat) :
    scanSubGo o f repl fuel [] = [] := by cases fuel <;> rfl

theorem scanSubGo_no_open (o f : Char) (repl : List Char → List Char) :
    ∀ (fuel : Nat) (s : List Char), (∀ ch ∈ s, ch ≠ o) →
      scanSubGo o f repl fuel s = s := by
  intro fuel
  induction fuel with
  | zero => intro s _; rfl
  | succ n ih =>
    intro s hs
    cases s with
    | nil => rfl
    | cons x xs =>
      have hx : x ≠ o := hs x (List.mem_cons_self _ _)
      simp only [scanSubGo, if_neg hx]
      exact congrArg (x :: ·) (ih xs (fun ch hch => hs ch (List.mem_cons_of_mem _ hch)))

theorem scanSubGo_match (o f : Char) (repl : List Char → List Char)
    (n : Nat) (t : Char) (ts r : List Char) (hT : ∀ ch ∈ t :: ts, ch ≠ f) :
    scanSubGo o f repl (n + 1) (o :: o :: ((t :: ts) ++ f :: f :: r)) =
      repl (t :: ts) ++ scanSubGo o f repl n r := by
  have hall : ∀ a ∈ t :: ts, (fun ch => ch != f) a = true := by
    intro a ha; simpa using hT a ha
  have hf : (fun ch => ch != f) f = false := by simp
  have htake := takeWhile_append_all (fun ch => ch != f) (t :: ts) f (f :: r) hall hf
  have hdrop := dropWhile_append_all (fun ch => ch != f) (t :: ts) f (f :: r) hall hf
  simp only [List.cons_append] at htake hdrop
  simp [scanSubGo, htake, hdrop]

/-! ## The MD5 digest is 32 lowercase hexadecimal characters -/

/-- The sixteen lowercase hexadecimal digit characters. -/
def hexDigits : List Char := "0123456789abcdef".data

theorem hexDigitChar_mem : ∀ n, n < 16 → hexDigitChar n ∈ hexDigits := by decide

theorem mem_byteHex (b : Nat) (hb : b < 256) :
    ∀ ch ∈ byteHex b, ch ∈ hexDigits := by
  intro ch hch
  simp only [byteHex, List.mem_cons, List.not_mem_nil, or_false] at hch
  rcases hch with h | h <;> subst h <;> apply hexDigitChar_mem <;> omega

theorem mem_hexOfBytes (bs : List Nat) (h : ∀ b ∈ bs, b < 256) :
    ∀ ch ∈ hexOfBytes bs, ch ∈ hexDigits := by
  induction bs with
  | nil => intro ch hch; simp [hexOfBytes] at hch
  | cons b bs ih =>
    intro ch hch
    simp only [hexOfBytes, List.map_cons, List.flatten_cons, List.mem_append] at hch
    rcases hch with hc | hc
    · exact mem_byteHex b (h b (List.mem_cons_self _ _)) ch hc
    · exact ih (fun x hx => h x (List.mem_cons_of_mem _ hx)) ch hc

theorem mem_wordBytesLE_lt (w : Nat) : ∀ x ∈ wordBytesLE w, x < 256 := by
  intro x hx
  simp only [wordBytesLE, List.mem_cons, List.not_mem_nil, or_false] at hx
  rcases hx with h | h | h | h <;> subst h <;> exact Nat.mod_lt _ (by omega)

theorem mem_digestBytes_lt (a b c d : Nat) :
    ∀ x ∈ digestBytes a b c d, x < 256 := by
  have he : digestBytes a b c d =
      wordBytesLE a ++ (wordBytesLE b ++ (wordBytesLE c ++ wordBytesLE d)) := by
    simp [digestBytes]
  intro x hx
  rw [he] at hx
  rcases List.mem_append.1 hx with h | h
  · exact mem_wordBytesLE_lt _ x h
  rcases List.mem_append.1 h with h2 | h2
  · exact mem_wordBytesLE_lt _ x h2
  rcases List.mem_append.1 h2 with h3 | h3
  · exact mem_wordBytesLE_lt _ x h3
  · exact mem_wordBytesLE_lt _ x h3

theorem mem_md5HashChars_hex (cs : List Char) :
    ∀ ch ∈ md5HashChars cs, ch ∈ hexDigits := by
  intro ch hch
  simp only [md5HashChars, md5Bytes] at hch
  exact mem_hexOfBytes _ (mem_digestBytes_lt _ _ _ _) ch hch

theorem hexOfBytes_length (bs : List Nat) :
    (hexOfBytes bs).length = 2 * bs.length := by
  induction bs with
  | nil => rfl
  | cons b bs ih =>
    simp only [hexOfBytes, List.map_cons, List.flatten_cons, List.length_append,
      List.length_cons] at ih ⊢
    simp [byteHex] at ih ⊢
    omega

theorem md5HashChars_length (cs : List Char) : (md5HashChars cs).length = 32 := by
  simp only [md5HashChars, md5Bytes, hexOfBytes_length]
  simp [digestBytes, wordBytesLE]

theorem hexDigits_not_delim : ∀ ch ∈ hexDigits,
    ch ≠ '[' ∧ ch ≠ '(' ∧ ch ≠ '*' ∧ ch ≠ '_' := by decide

/-! ## Behaviour of the inline formatter -/

theorem parse_inline_id_of_no_delims (s : String)
    (h : ∀ ch ∈ s.data, ch ≠ '[' ∧ ch ≠ '(' ∧ ch ≠ '*' ∧ ch ≠ '_') :
    parse_inline_formatting s = s := by
  cases s with
  | mk l =>
    have h1 : hashStage ⟨l⟩ = ⟨l⟩ := by
      show (⟨scanSub '[' ']' md5HashChars l⟩ : String) = ⟨l⟩
      unfold scanSub
      rw [scanSubGo_no_open '[' ']' md5HashChars l.length l (fun ch hch => (h ch hch).1)]
    have h2 : removeCStage ⟨l⟩ = ⟨l⟩ := by
      show (⟨scanSub '(' ')' removeCL l⟩ : String) = ⟨l⟩
      unfold scanSub
      rw [scanSubGo_no_open '(' ')' removeCL l.length l (fun ch hch => (h ch hch).2.1)]
    have h3 : boldStage ⟨l⟩ = ⟨l⟩ := by
      show (⟨scanSub '*' '*' _ l⟩ : String) = ⟨l⟩
      unfold scanSub
      rw [scanSubGo_no_open '*' '*' _ l.length l (fun ch hch => (h ch hch).2.2.1)]
    have h4 : emStage ⟨l⟩ = ⟨l⟩ := by
      show (⟨scanSub '_' '_' _ l⟩ : String) = ⟨l⟩
      unfold scanSub
      rw [scanSubGo_no_open '_' '_' _ l.length l (fun ch hch => (h ch hch).2.2.2)]
    show emStage (boldStage (removeCStage (hashStage ⟨l⟩))) = ⟨l⟩
    rw [h1, h2, h3, h4]

theorem parse_md5_fixed (T : String) :
    parse_inline_formatting (md5_hash T) = md5_hash T :=
  parse_inline_id_of_no_delims (md5_hash T)
    (fun ch hch => hexDigits_not_delim ch (mem_md5HashChars_hex T.data ch hch))

theorem parse_bracket_eq_md5 (T : String) (h1 : T.data ≠ [])
    (h2 : ∀ ch ∈ T.data, ch ≠ ']') :
    parse_inline_formatting ("[[" ++ T ++ "]]") = md5_hash T := by
  obtain ⟨t, ts, hts⟩ := List.exists_cons_of_ne_nil h1
  have hdata : ("[[" ++ T ++ "]]" : String).data =
      '[' :: '[' :: ((t :: ts) ++ ']' :: ']' :: []) := by
    rw [String.data_append, String.data_append, hts]
    rfl
  have hT : ∀ ch ∈ t :: ts, ch ≠ ']' := by rw [← hts]; exact h2
  have hstage1 : hashStage ("[[" ++ T ++ "]]") = ⟨md5HashChars (t :: ts)⟩ := by
    show (⟨scanSub '[' ']' md5HashChars ("[[" ++ T ++ "]]" : String).data⟩ : String) = _
    unfold scanSub
    rw [hdata]
    have hl : ('[' :: '[' :: ((t :: ts) ++ ']' :: ']' :: [])).length = (ts.length + 4) + 1 := by
      simp
    rw [hl, scanSubGo_match '[' ']' md5HashChars (ts.length + 4) t ts [] hT,
      scanSubGo_nil, List.append_nil]
  have hhex := mem_md5HashChars_hex (t :: ts)
  have hid : parse_inline_formatting (⟨md5HashChars (t :: ts)⟩ : String) =
      ⟨md5HashChars (t :: ts)⟩ :=
    parse_inline_id_of_no_delims _ (fun ch hch => hexDigits_not_delim ch (hhex ch hch))
  have hsplit : parse_inline_formatting ("[[" ++ T ++ "]]") =
      emStage (boldStage (removeCStage (hashStage ("[[" ++ T ++ "]]")))) := rfl
  rw [hsplit, hstage1]
  have : emStage (boldStage (removeCStage (⟨md5HashChars (t :: ts)⟩ : String))) =
      parse_inline_formatting (⟨md5HashChars (t :: ts)⟩ : String) := by
    show _ = emStage (boldStage (removeCStage (hashStage ⟨md5HashChars (t :: ts)⟩)))
    have hfix : hashStage (⟨md5HashChars (t :: ts)⟩ : String) = ⟨md5HashChars (t :: ts)⟩ := by
      show (⟨scanSub '[' ']' md5HashChars (md5HashChars (t :: ts))⟩ : String) = _
      unfold scanSub
      rw [scanSubGo_no_open '[' ']' md5HashChars _ _
        (fun ch hch => (hexDigits_not_delim ch (hhex ch hch)).1)]
    rw [hfix]
  rw [this, hid]
  show _ = md5_hash T
  unfold md5_hash
  rw [hts]

theorem strMkData (s : String) : (⟨s.data⟩ : String) = s := by
  cases s
  rfl

theorem parse_paren_eq_removeC (T : String) (h1 : T.data ≠ [])
    (h2 : ∀ ch ∈ T.data, ch ≠ ')' ∧ ch ≠ '[' ∧ ch ≠ '*' ∧ ch ≠ '_') :
    parse_inline_formatting ("((" ++ T ++ "))") = remove_c_chars T := by
  obtain ⟨t, ts, hts⟩ := List.exists_cons_of_ne_nil h1
  have hdata : ("((" ++ T ++ "))" : String).data =
      '(' :: '(' :: ((t :: ts) ++ ')' :: ')' :: []) := by
    rw [String.data_append, String.data_append, hts]
    rfl
  have hT2 : ∀ ch ∈ t :: ts, ch ≠ ')' ∧ ch ≠ '[' ∧ ch ≠ '*' ∧ ch ≠ '_' := by
    rw [← hts]; exact h2
  have hno1 : ∀ ch ∈ ("((" ++ T ++ "))" : String).data, ch ≠ '[' := by
    intro ch hch
    rw [hdata] at hch
    rcases List.mem_cons.1 hch with rfl | hch1
    · decide
    rcases List.mem_cons.1 hch1 with rfl | hch2
    · decide
    rcases List.mem_append.1 hch2 with hm | hm
    · exact (hT2 ch hm).2.1
    rcases List.mem_cons.1 hm with rfl | hm2
    · decide
    rcases List.mem_cons.1 hm2 with rfl | hm3
    · decide
    cases hm3
  have hstage1 : hashStage ("((" ++ T ++ "))") = ("((" ++ T ++ "))") := by
    show (⟨scanSub '[' ']' md5HashChars ("((" ++ T ++ "))" : String).data⟩ : String) = _
    unfold scanSub
    rw [scanSubGo_no_open '[' ']' md5HashChars _ _ hno1]
  have hstage2 : removeCStage ("((" ++ T ++ "))") = ⟨removeCL (t :: ts)⟩ := by
    show (⟨scanSub '(' ')' removeCL ("((" ++ T ++ "))" : String).data⟩ : String) = _
    unfold scanSub
    rw [hdata]
    have hl : ('(' :: '(' :: ((t :: ts) ++ ')' :: ')' :: [])).length = (ts.length + 4) + 1 := by
      simp
    rw [hl, scanSubGo_match '(' ')' removeCL (ts.length + 4) t ts []
      (fun ch hch => (hT2 ch hch).1), scanSubGo_nil, List.append_nil]
  have hmemC : ∀ ch ∈ removeCL (t :: ts), ch ∈ t :: ts := by
    intro ch hch
    exact (List.mem_filter.1 hch).1
  have hstage3 : boldStage (⟨removeCL (t :: ts)⟩ : String) = ⟨removeCL (t :: ts)⟩ := by
    show (⟨scanSub '*' '*' _ (removeCL (t :: ts))⟩ : String) = _
    unfold scanSub
    rw [scanSubGo_no_open '*' '*' _ _ _
      (fun ch hch => (hT2 ch (hmemC ch hch)).2.2.1)]
  have hstage4 : emStage (⟨removeCL (t :: ts)⟩ : String) = ⟨removeCL (t :: ts)⟩ := by
    show (⟨scanSub '_' '_' _ (removeCL (t :: ts))⟩ : String) = _
    unfold scanSub
    rw [scanSubGo_no_open '_' '_' _ _ _
      (fun ch hch => (hT2 ch (hmemC ch hch)).2.2.2)]
  show emStage (boldStage (removeCStage (hashStage ("((" ++ T ++ "))")))) = _
  rw [hstage1, hstage2, hstage3, hstage4]
  unfold remove_c_chars
  rw [hts]

/-! ## Lemmas about the block-parsing loop -/

theorem convertGo_stuck (lines : List String) (i : Nat) (fs : List String)
    (hstep : convStep lines i = some (fs, i)) :
    ∀ (fuel : Nat) (acc : List String), convertGo lines fuel i acc = none := by
  intro fuel
  induction fuel with
  | zero => intro acc; simp [convertGo, hstep]
  | succ n ih =>
    intro acc
    simp only [convertGo, hstep]
    exact ih _

theorem isPrefixOf_append_self : ∀ (p r : List Char), p.isPrefixOf (p ++ r) = true := by
  intro p
  induction p with
  | nil => intro r; simp [List.isPrefixOf]
  | cons a as ih => intro r; simp [List.isPrefixOf, ih]

theorem strStarts_of_append (p s : String) : strStarts (p ++ s) p = true := by
  unfold strStarts
  rw [String.data_append]
  exact isPrefixOf_append_self _ _

theorem strEnds_of_append (s p : String) : strEnds (s ++ p) p = true := by
  unfold strEnds
  unfold List.isSuffixOf
  rw [String.data_append, List.reverse_append]
  exact isPrefixOf_append_self _ _

theorem processListGo_eq (c : String) (ls : List String) :
    processListGo c ls =
      ((ls.takeWhile (fun l => strStarts l (c ++ " "))).map
         (fun l => "<li>" ++ parse_inline_formatting (pyStrip (strDrop l (c ++ " ").length)) ++ "</li>"),
       (ls.takeWhile (fun l => strStarts l (c ++ " "))).length +
         (match ls.dropWhile (fun l => strStarts l (c ++ " ")) with
          | [] => 0
          | r :: _ => if (pyStrip r).data.isEmpty then 1 else 0)) := by
  induction ls with
  | nil => rfl
  | cons l rest ih =>
    by_cases hm : strStarts l (c ++ " ") = true
    · rw [Prod.ext_iff]
      constructor
      · simp [processListGo, hm, List.takeWhile_cons, ih]
      · simp only [processListGo, hm, if_true, List.takeWhile_cons, List.dropWhile_cons, ih]
        simp
        omega
    · by_cases hb : (pyStrip l).data.isEmpty = true
      · simp [processListGo, hm, hb, List.takeWhile_cons, List.dropWhile_cons]
      · simp [processListGo, hm, hb, List.takeWhile_cons, List.dropWhile_cons]

theorem strAppend_assoc (a b c : String) : (a ++ b) ++ c = a ++ (b ++ c) :=
  String.append_assoc a b c

theorem dropLast_append_single {α : Type} (l : List α) (a : α) :
    (l ++ [a]).dropLast = l := by
  rw [List.dropLast_concat]

/-! ## The claims -/

/-- C1: the claim says the core conversion terminates with some output on
every input.  The code does not: on a line starting with `#` that is not a
valid header (here the single line `"#NoSpace"`), the paragraph branch
collects zero lines and never advances the cursor, so the outer loop runs
forever (the model returns `none` for every amount of fuel). -/
theorem convert_nonterminating_on_invalid_header :
    ∀ fuel : Nat, convert_markdown_to_html fuel ["#NoSpace"] = none := by
  intro fuel
  unfold convert_markdown_to_html
  rw [convertGo_stuck ["#NoSpace"] 0 ["<p></p>"] (by decide) fuel []]
  rfl

/-- C2: `"# Title"` renders as `<h1>Title</h1>` and `"###### Deep"` as
`<h6>Deep</h6>`, as claimed; but a line with 7 leading `#` is NOT rendered
as a paragraph — the conversion loops forever on it (`none` for every
fuel), contradicting the claim's last part. -/
theorem header_line_rendering :
    convert_markdown_to_html 2 ["# Title"] = some "<h1>Title</h1>\n" ∧
    convert_markdown_to_html 2 ["###### Deep"] = some "<h6>Deep</h6>\n" ∧
    ∀ fuel : Nat, convert_markdown_to_html fuel ["####### Seven"] = none := by
  refine ⟨by decide, by decide, ?_⟩
  intro fuel
  unfold convert_markdown_to_html
  rw [convertGo_stuck ["####### Seven"] 0 ["<p></p>"] (by decide) fuel []]
  rfl

/-- C3 (counterexample): the claim quantifies over texts `T` containing no
`]]`, but the pattern `\[\[([^\]]+)\]\]` forbids any single `]` in the
span: for `T = "a]b"` (which contains no `]]`) the input `"[[a]b]]"` is
left unchanged instead of being hashed. -/
theorem bracket_span_md5_counterexample :
    parse_inline_formatting "[[a]b]]" ≠ md5_hash "a]b" := by decide

/-- C3 (amended): for every nonempty text `T` containing no `]` at all,
formatting `"[[" ++ T ++ "]]"` yields exactly `md5_hash T`, which is the
32-character lowercase hexadecimal MD5 digest of T's UTF-8 bytes. -/
theorem bracket_span_md5 (T : String) (h1 : T.data ≠ [])
    (h2 : ∀ ch ∈ T.data, ch ≠ ']') :
    parse_inline_formatting ("[[" ++ T ++ "]]") = md5_hash T ∧
    (md5_hash T).length = 32 ∧
    (md5_hash T).data.all (fun ch => hexDigits.contains ch) = true := by
  refine ⟨parse_bracket_eq_md5 T h1 h2, ?_, ?_⟩
  · show (String.mk (md5HashChars T.data)).length = 32
    rw [String.length_mk]
    exact md5HashChars_length T.data
  · rw [List.all_eq_true]
    intro ch hch
    have hmem : ch ∈ hexDigits := mem_md5HashChars_hex T.data ch hch
    unfold List.contains
    exact List.elem_iff.2 hmem

theorem bracket_span_md5_witness :
    parse_inline_formatting ("[[" ++ "ab" ++ "]]") = md5_hash "ab" ∧
    (md5_hash "ab").length = 32 ∧
    (md5_hash "ab").data.all (fun ch => hexDigits.contains ch) = true :=
  bracket_span_md5 "ab" (by decide) (by decide)

/-- C4 (counterexample): the claim quantifies over texts `T` containing no
`]]`; but for `T = "a]((c))]b"` the first pass does not hash (there is a
stray `]` in the span) while the c-removal stage deletes `((c))` and glues
two `]` together, so the second pass finds a new `[[a]]` span and hashes
it: the formatter is not idempotent on that output. -/
theorem inline_formatter_not_idempotent :
    parse_inline_formatting (parse_inline_formatting "[[a]((c))]b]]") ≠
      parse_inline_formatting "[[a]((c))]b]]" := by decide

/-- C4 (amended): for every nonempty text `T` containing no `]`, the result
of formatting `"[[" ++ T ++ "]]"` is the hex digest, and re-running the
formatter on it leaves it unchanged. -/
theorem inline_formatter_idempotent_on_digest (T : String) (h1 : T.data ≠ [])
    (h2 : ∀ ch ∈ T.data, ch ≠ ']') :
    parse_inline_formatting (parse_inline_formatting ("[[" ++ T ++ "]]")) =
      parse_inline_formatting ("[[" ++ T ++ "]]") := by
  rw [parse_bracket_eq_md5 T h1 h2]
  exact parse_md5_fixed T

theorem inline_formatter_idempotent_on_digest_witness :
    parse_inline_formatting (parse_inline_formatting ("[[" ++ "xy" ++ "]]")) =
      parse_inline_formatting ("[[" ++ "xy" ++ "]]") :=
  inline_formatter_idempotent_on_digest "xy" (by decide) (by decide)

/-- C5 (counterexample): the claim quantifies over all texts `T` with no
`)`, but later stages still act on the substituted text: for `T = "**a**"`
the result is `<b>a</b>`, not `remove_c_chars "**a**" = "**a**"`. -/
theorem paren_span_counterexample :
    parse_inline_formatting "((**a**))" ≠ remove_c_chars "**a**" := by decide

/-- C5 (amended): for every nonempty text `T` with no `)` and no character
of the other three patterns (`[`, `*`, `_`), formatting `"((" ++ T ++ "))"`
yields `T` with every `c`/`C` removed and everything else preserved in
order (`remove_c_chars T`, a filter). -/
theorem paren_span_removes_c (T : String) (h1 : T.data ≠ [])
    (h2 : ∀ ch ∈ T.data, ch ≠ ')' ∧ ch ≠ '[' ∧ ch ≠ '*' ∧ ch ≠ '_') :
    parse_inline_formatting ("((" ++ T ++ "))") = remove_c_chars T :=
  parse_paren_eq_removeC T h1 h2

theorem paren_span_removes_c_witness :
    parse_inline_formatting ("((" ++ "crab" ++ "))") = remove_c_chars "crab" :=
  paren_span_removes_c "crab" (by decide) (by decide)

/-- C6: the four substitutions are applied in the fixed order hash,
c-removal, bold, emphasis, each stage on the previous stage's result; on
`"**[[ab]]**"` the hash directive fires first and the bold stage then
wraps the digest in `<b>…</b>`. -/
theorem inline_stage_order :
    (∀ line : String, parse_inline_formatting line =
      emStage (boldStage (removeCStage (hashStage line)))) ∧
    parse_inline_formatting "**[[ab]]**" = "<b>" ++ md5_hash "ab" ++ "</b>" :=
  ⟨fun _ => rfl, by decide⟩

/-- C7: the cursor never moves backwards (each loop iteration's next index
is at least the current one); but the claim that every line is consumed
exactly once fails: on `["#a", "b"]` the parser loops forever on line 0
and never consumes line 1 (the model returns `none` for every fuel). -/
theorem parser_cursor_monotone_and_nontermination :
    (∀ (lines : List String) (i : Nat), i ≤ nextIndex lines i) ∧
    (∀ fuel : Nat, convert_markdown_to_html fuel ["#a", "b"] = none) := by
  constructor
  · intro lines i
    unfold nextIndex
    cases h : convStep lines i with
    | none => exact Nat.le_refl i
    | some fj =>
      cases hl : lines[i]? with
      | none => simp [convStep, hl] at h
      | some line =>
        simp only [convStep, hl] at h
        split_ifs at h <;>
          (injection h with h2; subst h2) <;>
          simp [process_list_block]
  · intro fuel
    unfold convert_markdown_to_html
    rw [convertGo_stuck ["#a", "b"] 0 ["<p></p>"] (by decide) fuel []]
    rfl

/-- C8: `process_list_block` turns the maximal run of marker lines starting
at the cursor into `<li>` items (text after the marker, stripped and
inline-formatted) between the open and close tags, and advances the cursor
past that run, plus one more line exactly when the run is terminated by a
blank line (consuming it); any other terminating line is left unconsumed. -/
theorem process_list_block_semantics :
    ∀ (lines : List String) (start_index : Nat) (c tag : String),
      process_list_block lines start_index c tag =
        (("<" ++ tag ++ ">") ::
           ((lines.drop start_index).takeWhile (fun l => strStarts l (c ++ " "))).map
             (fun l => "<li>" ++ parse_inline_formatting (pyStrip (strDrop l (c ++ " ").length)) ++ "</li>")
           ++ ["</" ++ tag ++ ">"],
         start_index +
           ((lines.drop start_index).takeWhile (fun l => strStarts l (c ++ " "))).length +
           (match (lines.drop start_index).dropWhile (fun l => strStarts l (c ++ " ")) with
            | [] => 0
            | r :: _ => if (pyStrip r).data.isEmpty then 1 else 0)) := by
  intro lines start_index c tag
  unfold process_list_block
  rw [processListGo_eq]
  rw [Prod.ext_iff]
  constructor
  · rfl
  · simp [Nat.add_assoc]

/-- C9: empty delimiter spans are left as literal text: each of the four
substitutions requires at least one character between its delimiters, so
`[[]]`, `(())`, `****` and `____` come out of the formatter unchanged. -/
theorem empty_delimiter_spans_literal :
    parse_inline_formatting "[[]]" = "[[]]" ∧ parse_inline_formatting "(())" = "(())" ∧
    parse_inline_formatting "****" = "****" ∧ parse_inline_formatting "____" = "____" := by
  refine ⟨by decide, by decide, by decide, by decide⟩

/-- C10: when the start line carries the marker, `process_list_block`
returns a fragment whose first line is the open tag and last line the
matching close tag, with at least one `<li>…</li>` item between them, and
the returned cursor index is strictly greater than the start index. -/
theorem process_list_block_progress (lines : List String) (start_index : Nat)
    (c tag l : String) (hl : lines[start_index]? = some l)
    (hm : strStarts l (c ++ " ") = true) :
    (process_list_block lines start_index c tag).1 =
        ("<" ++ tag ++ ">") ::
          (((process_list_block lines start_index c tag).1.drop 1).dropLast
            ++ ["</" ++ tag ++ ">"]) ∧
    ((process_list_block lines start_index c tag).1.drop 1).dropLast ≠ [] ∧
    (((process_list_block lines start_index c tag).1.drop 1).dropLast).all
        (fun it => strStarts it "<li>" && strEnds it "</li>") = true ∧
    start_index < (process_list_block lines start_index c tag).2 := by
  obtain ⟨hlen, hval⟩ := List.getElem?_eq_some.1 hl
  have hdrop : lines.drop start_index = l :: lines.drop (start_index + 1) := by
    rw [List.drop_eq_getElem_cons hlen, hval]
  have hgo : processListGo c (lines.drop start_index) =
      (("<li>" ++ parse_inline_formatting (pyStrip (strDrop l (c ++ " ").length)) ++ "</li>")
          :: ((lines.drop (start_index + 1)).takeWhile (fun s => strStarts s (c ++ " "))).map
            (fun s => "<li>" ++ parse_inline_formatting (pyStrip (strDrop s (c ++ " ").length)) ++ "</li>"),
        (((lines.drop (start_index + 1)).takeWhile (fun s => strStarts s (c ++ " "))).length + 1) +
          (match (lines.drop (start_index + 1)).dropWhile (fun s => strStarts s (c ++ " ")) with
           | [] => 0
           | r :: _ => if (pyStrip r).data.isEmpty then 1 else 0)) := by
    rw [hdrop, processListGo_eq]
    rw [Prod.ext_iff]
    constructor
    · simp [List.takeWhile_cons, hm]
    · simp [List.takeWhile_cons, List.dropWhile_cons, hm]
  have hfst : (process_list_block lines start_index c tag).1 =
      ("<" ++ tag ++ ">") ::
        ((("<li>" ++ parse_inline_formatting (pyStrip (strDrop l (c ++ " ").length)) ++ "</li>")
            :: ((lines.drop (start_index + 1)).takeWhile (fun s => strStarts s (c ++ " "))).map
              (fun s => "<li>" ++ parse_inline_formatting (pyStrip (strDrop s (c ++ " ").length)) ++ "</li>"))
          ++ ["</" ++ tag ++ ">"]) := by
    unfold process_list_block
    rw [hgo]
    rfl
  have hmid : ((process_list_block lines start_index c tag).1.drop 1).dropLast =
      ("<li>" ++ parse_inline_formatting (pyStrip (strDrop l (c ++ " ").length)) ++ "</li>")
        :: ((lines.drop (start_index + 1)).takeWhile (fun s => strStarts s (c ++ " "))).map
          (fun s => "<li>" ++ parse_inline_formatting (pyStrip (strDrop s (c ++ " ").length)) ++ "</li>") := by
    rw [hfst]
    show (List.dropLast (List.drop 1 (_ :: _))) = _
    rw [List.drop_succ_cons, List.drop_zero, dropLast_append_single]
  have hsnd : (process_list_block lines start_index c tag).2 =
      start_index +
        ((((lines.drop (start_index + 1)).takeWhile (fun s => strStarts s (c ++ " "))).length + 1) +
          (match (lines.drop (start_index + 1)).dropWhile (fun s => strStarts s (c ++ " ")) with
           | [] => 0
           | r :: _ => if (pyStrip r).data.isEmpty then 1 else 0)) := by
    unfold process_list_block
    rw [hgo]
  refine ⟨?_, ?_, ?_, ?_⟩
  · rw [hmid, hfst]
  · rw [hmid]
    exact List.cons_ne_nil _ _
  · rw [hmid, List.all_eq_true]
    intro it hit
    have hform : ∃ y : String,
        it = "<li>" ++ parse_inline_formatting (pyStrip (strDrop y (c ++ " ").length)) ++ "</li>" := by
      rcases List.mem_cons.1 hit with heq | hmem
      · exact ⟨l, heq⟩
      · obtain ⟨y, _, hy⟩ := List.mem_map.1 hmem
        exact ⟨y, hy.symm⟩
    obtain ⟨y, rfl⟩ := hform
    rw [Bool.and_eq_true]
    constructor
    · rw [strAppend_assoc]
      exact strStarts_of_append _ _
    · exact strEnds_of_append _ _
  · rw [hsnd]
    omega

theorem process_list_block_progress_witness :
    (process_list_block ["- a"] 0 "-" "ul").1 =
        ("<" ++ "ul" ++ ">") ::
          (((process_list_block ["- a"] 0 "-" "ul").1.drop 1).dropLast
            ++ ["</" ++ "ul" ++ ">"]) ∧
    ((process_list_block ["- a"] 0 "-" "ul").1.drop 1).dropLast ≠ [] ∧
    (((process_list_block ["- a"] 0 "-" "ul").1.drop 1).dropLast).all
        (fun it => strStarts it "<li>" && strEnds it "</li>") = true ∧
    0 < (process_list_block ["- a"] 0 "-" "ul").2 :=
  process_list_block_progress ["- a"] 0 "-" "ul" "- a" (by decide) (by decide)
